import Mathlib

/-!
# Verification of the Country RTT Map metric engine (`app.js`)

A shallow embedding of the metric-estimation and color-scaling engine of
`app.js`.  JavaScript numbers are modelled by `ℚ`; a table cell that the
source reads through `parseNum` (which yields a finite number or `null`)
is modelled as `Option ℚ`: `some q` when the cell parses to the finite
number `q`, `none` when it is absent, blank, non-numeric or `NaN`.
`Math.round` is half-up rounding, `Math.floor`/`Math.ceil` are the integer
floor and ceiling.  The two country-code cells are kept as raw character
lists (a JavaScript string is a sequence of characters) because
`buildIndex` inspects them before any numeric parsing.
-/

/-- JavaScript `Math.round` on a finite number: round half toward positive
infinity, i.e. `⌊x + 1/2⌋`. -/
def jsRound (x : ℚ) : ℤ := ⌊x + 1/2⌋

/-- Evaluation rule for `jsRound` at concrete arguments. -/
theorem jsRound_eq {x : ℚ} {z : ℤ} (h1 : (z : ℚ) ≤ x + 1/2)
    (h2 : x + 1/2 < (z : ℚ) + 1) : jsRound x = z := by
  unfold jsRound
  rw [Int.floor_eq_iff]
  exact ⟨h1, h2⟩

/-- One CSV row of `country_country_rtt.csv` as the engine sees it: the two
country-code cells as raw character sequences, every numeric cell already
pushed through `parseNum` (`some` finite value, or `none` for
absent/blank/`NaN`). -/
structure Row where
  src_country : List Char := []
  dst_country : List Char := []
  n : Option ℚ := none
  mean_ms : Option ℚ := none
  min_ms : Option ℚ := none
  max_ms : Option ℚ := none
  p50_ms : Option ℚ := none
  p90_ms : Option ℚ := none
  p95_ms : Option ℚ := none
  average_ms : Option ℚ := none
deriving DecidableEq

/-- The JavaScript test `x !== null && x < 0` applied to a parsed cell. -/
def isNeg (v : Option ℚ) : Bool :=
  match v with
  | some x => if x < 0 then true else false
  | none => false

/-- Source `firstNonNegative(...values)` from `app.js`: the first argument that is
non-null and `>= 0`, else `null`. -/
def firstNonNegative (values : List (Option ℚ)) : Option ℚ :=
  match values with
  | [] => none
  | v :: rest =>
    match v with
    | some x => if 0 ≤ x then some x else firstNonNegative rest
    | none => firstNonNegative rest

/-- The `invalidFrac` accumulation inside `estimateInvalidCount`:
baseline `max(1/max(1,n), 0.01)`, raised to `0.70` / `0.925` / `0.975`
when `p50` / `p90` / `p95` parse to a negative value. -/
def invalidFrac (row : Row) (n : ℤ) : ℚ :=
  let f0 : ℚ := Max.max (1 / Max.max 1 (n : ℚ)) (1/100)
  let f1 : ℚ := if isNeg row.p50_ms then Max.max f0 (70/100) else f0
  let f2 : ℚ := if isNeg row.p90_ms then Max.max f1 (925/1000) else f1
  if isNeg row.p95_ms then Max.max f2 (975/1000) else f2

/-- Source `estimateInvalidCount(row, n)` from `app.js`. -/
def estimateInvalidCount (row : Row) (n : ℤ) : ℤ :=
  if row.max_ms = some (-1) then n
  else if row.min_ms ≠ some (-1) then 0
  else
    let invalidCount := jsRound (invalidFrac row n * (n : ℚ))
    Min.min (n - 1) (Max.max 1 invalidCount)

/-- The sample count used by `computeAverageMs`:
`Number.isFinite(nRaw) ? Math.round(nRaw) : 0`. -/
def roundedN (row : Row) : ℤ :=
  match row.n with
  | some nRaw => jsRound nRaw
  | none => 0

/-- The reconstructed mean `(mean*n + invalidCount) / (n - invalidCount)`. -/
def correctedMean (mean : ℚ) (n invalidCount : ℤ) : ℚ :=
  (mean * (n : ℚ) + (invalidCount : ℚ)) / ((n : ℚ) - (invalidCount : ℚ))

/-- Source `computeAverageMs(row)` from `app.js`. -/
def computeAverageMs (row : Row) : ℚ :=
  match row.average_ms with
  | some existing => existing
  | none =>
    match row.mean_ms with
    | none => -1
    | some mean =>
      if roundedN row ≤ 0 then -1
      else if row.max_ms = some (-1) then -1
      else if row.min_ms ≠ some (-1) ∧ 0 ≤ mean then mean
      else
        if roundedN row ≤ estimateInvalidCount row (roundedN row) then -1
        else if 0 ≤ correctedMean mean (roundedN row)
                      (estimateInvalidCount row (roundedN row)) then
          correctedMean mean (roundedN row)
            (estimateInvalidCount row (roundedN row))
        else
          match firstNonNegative
              [row.p50_ms, row.p90_ms, row.p95_ms, row.max_ms] with
          | some fallback => fallback
          | none => -1

/-- Source `enrichAverageMetric(rows)`: store `computeAverageMs(row)` in every
row's `average_ms` field. -/
def enrichAverageMetric (rows : List Row) : List Row :=
  rows.map fun row => { row with average_ms := some (computeAverageMs row) }

/-- Unfolding of `estimateInvalidCount` on the percentile path
(`max_ms` not the sentinel, `min_ms` equal to the sentinel). -/
theorem estimateInvalidCount_eq (row : Row) (n : ℤ)
    (hmax : row.max_ms ≠ some (-1)) (hmin : row.min_ms = some (-1)) :
    estimateInvalidCount row n =
      Min.min (n - 1) (Max.max 1 (jsRound (invalidFrac row n * (n : ℚ)))) := by
  unfold estimateInvalidCount
  rw [if_neg hmax, if_neg (by simp [hmin])]

/-- Unfolding of `computeAverageMs` when no usable `average_ms` is provided
and the mean parses. -/
theorem computeAverageMs_eq (row : Row) (mean : ℚ)
    (havg : row.average_ms = none) (hmean : row.mean_ms = some mean) :
    computeAverageMs row =
      (if roundedN row ≤ 0 then -1
       else if row.max_ms = some (-1) then -1
       else if row.min_ms ≠ some (-1) ∧ 0 ≤ mean then mean
       else if roundedN row ≤ estimateInvalidCount row (roundedN row) then -1
       else if 0 ≤ correctedMean mean (roundedN row)
                    (estimateInvalidCount row (roundedN row)) then
         correctedMean mean (roundedN row)
           (estimateInvalidCount row (roundedN row))
       else
         match firstNonNegative
             [row.p50_ms, row.p90_ms, row.p95_ms, row.max_ms] with
         | some fallback => fallback
         | none => -1) := by
  unfold computeAverageMs
  rw [havg, hmean]

/-- The row of the spec's worked example:
`n=100, mean_ms=50, min_ms=-1, p50_ms=-1, p90_ms=10, p95_ms=20, max_ms=80`,
no provided `average_ms`. -/
def row3 : Row :=
  { n := some 100, mean_ms := some 50, min_ms := some (-1),
    p50_ms := some (-1), p90_ms := some 10, p95_ms := some 20,
    max_ms := some 80 }

/-! ## Metric value index (`METRIC_FIELDS`, `buildMetricValues`, `buildIndex`) -/

/-- The tracked metric field names (`METRIC_FIELDS` in `app.js`). -/
inductive Metric
  | average_ms | mean_ms | p50_ms | p90_ms | p95_ms | min_ms | max_ms
deriving DecidableEq

/-- Source `METRIC_FIELDS`: default metric first, then the summary statistics. -/
def METRIC_FIELDS : List Metric :=
  [.average_ms, .mean_ms, .p50_ms, .p90_ms, .p95_ms, .min_ms, .max_ms]

/-- The dynamic access `row[metric]` (already through `parseNum`). -/
def getMetric (row : Row) : Metric → Option ℚ
  | .average_ms => row.average_ms
  | .mean_ms => row.mean_ms
  | .p50_ms => row.p50_ms
  | .p90_ms => row.p90_ms
  | .p95_ms => row.p95_ms
  | .min_ms => row.min_ms
  | .max_ms => row.max_ms

/-- Source `buildMetricValues(rows)` for one metric: collect each row's value for
the field that parses to a finite number `>= 0`, then sort ascending. -/
def buildMetricValues (rows : List Row) (metric : Metric) : List ℚ :=
  (rows.filterMap fun row =>
    match getMetric row metric with
    | some v => if 0 ≤ v then some v else none
    | none => none).insertionSort (· ≤ ·)

/-- JavaScript `String.prototype.trim` on the character-list model:
drop whitespace from both ends. -/
def jsTrim (s : List Char) : List Char :=
  ((s.dropWhile Char.isWhitespace).reverse.dropWhile Char.isWhitespace).reverse

/-- The normalization `(string || '').trim().toUpperCase()` used by `buildIndex`. -/
def normCode (s : List Char) : List Char :=
  (jsTrim s).map Char.toUpper

/-- The entries `(src, dst, row)` that `buildIndex(rows)` stores in the
nested `bySrc` map; rows with a blank `src` or `dst` are skipped.  Later
entries overwrite earlier ones for the same `(src, dst)` key. -/
def indexEntries (rows : List Row) : List (List Char × List Char × Row) :=
  rows.filterMap fun r =>
    let src := normCode r.src_country
    let dst := normCode r.dst_country
    if src = [] ∨ dst = [] then none else some (src, dst, r)

/-- The lookup `bySrc.get(src)?.get(dst)` after `buildIndex(rows)`: the last surviving
entry for the key pair, if any. -/
def bySrcLookup (rows : List Row) (src dst : List Char) : Option Row :=
  (((indexEntries rows).filter fun e =>
      decide (e.1 = src) && decide (e.2.1 = dst)).getLast?).map fun e => e.2.2

/-! ## Scale computation (`computeGlobalScale`, `buildRenderState`) -/

/-- The two scale transforms of `scaleCfg.transform`. -/
inductive Transform
  | linear | log
deriving DecidableEq

/-- The global scale configuration object `scaleCfg`. -/
structure ScaleCfg where
  auto : Bool
  minMs : ℚ
  maxMs : ℚ
  pLow : ℚ
  pHigh : ℚ
  transform : Transform
  missingColor : String
deriving DecidableEq

/-- The initial value of `scaleCfg` in `app.js`. -/
def scaleCfgDefault : ScaleCfg :=
  { auto := true, minMs := 20, maxMs := 300, pLow := 5, pHigh := 95,
    transform := .linear, missingColor := "#dddddd" }

/-- The percentile closure `q` inside `computeGlobalScale`: linearly
interpolated order statistic at `p` percent of a value sequence. -/
def qPercentile (vals : List ℚ) (p : ℚ) : ℚ :=
  let idx : ℚ := (p / 100) * ((vals.length : ℚ) - 1)
  let lo := ⌊idx⌋
  let hi := ⌈idx⌉
  if lo = hi then vals.getD lo.toNat 0
  else vals.getD lo.toNat 0 * (1 - (idx - lo)) + vals.getD hi.toNat 0 * (idx - lo)

/-- Source `computeGlobalScale(metric)` from `app.js`, with the metric's sorted
value sequence passed explicitly (the source reads it from the
`metricValues` map). -/
def computeGlobalScale (vals : List ℚ) (cfg : ScaleCfg) : ℚ × ℚ :=
  if vals.length = 0 then (0, 1)
  else
    let mn := qPercentile vals cfg.pLow
    let mx := qPercentile vals cfg.pHigh
    (mn, Max.max mx (mn + 1/1000000))

/-- The scale part of `buildRenderState`: `scaleCfg.auto` selects between
`computeGlobalScale` and the verbatim manual bounds. -/
def buildRenderStateScale (cfg : ScaleCfg) (vals : List ℚ) : ℚ × ℚ :=
  if cfg.auto then computeGlobalScale vals cfg else (cfg.minMs, cfg.maxMs)

/-! ## Color mapping (`valueToColor` and helpers) -/

/-- Source `clamp01(t)` from `app.js`. -/
def clamp01 (t : ℚ) : ℚ := Max.max 0 (Min.min 1 t)

/-- Source `lerp(a, b, t)` from `app.js`. -/
def lerp (a b t : ℚ) : ℚ := a + (b - a) * t

/-- An rgb triple as produced by `hexToRgb`. -/
structure Rgb where
  r : ℤ
  g : ℤ
  b : ℤ
deriving DecidableEq

/-- The value `hexToRgb("#00b050")`, the fixed "fast" anchor. -/
def green : Rgb := ⟨0x00, 0xb0, 0x50⟩

/-- The value `hexToRgb("#ff0000")`, the fixed "slow" anchor. -/
def red : Rgb := ⟨0xff, 0x00, 0x00⟩

/-- One lowercase hex digit, as in `n.toString(16)`. -/
def hexDigitChar (n : Nat) : Char :=
  if n < 10 then Char.ofNat (48 + n) else Char.ofNat (87 + n)

/-- The formatting `n.toString(16).padStart(2, '0')` for a channel value in 0..255. -/
def toHexByte (n : ℤ) : String :=
  String.mk [hexDigitChar (n.toNat / 16 % 16), hexDigitChar (n.toNat % 16)]

/-- Source `rgbToHex(rgb)` from `app.js`. -/
def rgbToHex (c : Rgb) : String :=
  "#" ++ toHexByte c.r ++ toHexByte c.g ++ toHexByte c.b

/-- The ramp color produced for a clamped position `t`: channel-wise
rounded linear interpolation from the green anchor to the red anchor. -/
def rampColor (t : ℚ) : String :=
  rgbToHex
    { r := jsRound (lerp (green.r : ℚ) (red.r : ℚ) t),
      g := jsRound (lerp (green.g : ℚ) (red.g : ℚ) t),
      b := jsRound (lerp (green.b : ℚ) (red.b : ℚ) t) }

/-- Source `valueToColor(v, minV, maxV)` from `app.js`.  The binary64 primitive
`Math.log10` has no exact rational counterpart, so the log-transform branch
is parameterised by an arbitrary function `lg` standing for
`Math.log10`; every property proved below holds for all `lg`. -/
def valueToColor (lg : ℚ → ℚ) (cfg : ScaleCfg) (v : Option ℚ)
    (minV maxV : ℚ) : String :=
  match v with
  | none => cfg.missingColor
  | some vRaw =>
    let eps : ℚ := 1/1000000
    let vv := match cfg.transform with
      | .linear => vRaw
      | .log => lg (Max.max eps vRaw)
    let a := match cfg.transform with
      | .linear => minV
      | .log => lg (Max.max eps minV)
    let b := match cfg.transform with
      | .linear => maxV
      | .log => lg (Max.max eps maxV)
    let t := clamp01 ((vv - a) / (if b - a = 0 then 1 else b - a))
    rampColor t

/-! ## Refresh scheduling (`refreshLayer`) -/

/-- The scheduler state of `refreshLayer`: the two module-level flags
`refreshScheduled` and `refreshPending`, whether a `runRefresh` callback is
queued on the frame clock, whether a pass is currently executing, and how
many recompute passes have started. -/
structure SchedState where
  refreshScheduled : Bool
  refreshPending : Bool
  running : Bool
  queued : Bool
  passes : Nat
deriving DecidableEq

/-- The all-idle initial state (`refreshScheduled = refreshPending =
false`, nothing queued or running, no passes yet). -/
def idleState : SchedState :=
  { refreshScheduled := false, refreshPending := false, running := false,
    queued := false, passes := 0 }

/-- Events of the `refreshLayer` state machine: an external refresh signal
(a call to `refreshLayer`), the queued `runRefresh` callback starting, and
the running pass reaching its trailing pending-check. -/
inductive SchedEv
  | signal | beginPass | endPass
deriving DecidableEq

/-- One step of the `refreshLayer` state machine.

* `signal`: `refreshPending = true`; if not already scheduled, set
  `refreshScheduled` and queue `runRefresh` (via the two chained
  `requestAnimationFrame` ticks).
* `beginPass` (enabled when queued and not running): dequeue, clear
  `refreshPending` *before* the recomputation, count the pass.
* `endPass` (enabled when running): if `refreshPending` was set again
  mid-pass, re-queue `runRefresh`; otherwise clear `refreshScheduled`.

`none` marks an event that cannot occur in that state. -/
def schedStep (s : SchedState) : SchedEv → Option SchedState
  | .signal =>
    some { s with
      refreshPending := true,
      refreshScheduled := true,
      queued := if s.refreshScheduled then s.queued else true }
  | .beginPass =>
    if s.queued && !s.running then
      some { s with
        queued := false, running := true,
        refreshPending := false, passes := s.passes + 1 }
    else none
  | .endPass =>
    if s.running then
      some (if s.refreshPending then
              { s with running := false, queued := true }
            else
              { s with running := false, refreshScheduled := false })
    else none

/-- Run a sequence of events, failing if any event is not enabled. -/
def runTrace (s : SchedState) : List SchedEv → Option SchedState
  | [] => some s
  | e :: rest =>
    match schedStep s e with
    | some s2 => runTrace s2 rest
    | none => none

/-- A burst of `k` successive refresh signals. -/
def sigs (k : Nat) : List SchedEv := List.replicate k .signal

/-! ## Helper lemmas -/

/-- Whatever `firstNonNegative` returns is non-negative. -/
theorem firstNonNegative_nonneg :
    ∀ (values : List (Option ℚ)) (x : ℚ),
      firstNonNegative values = some x → 0 ≤ x
  | [], x, h => by simp [firstNonNegative] at h
  | none :: rest, x, h =>
    firstNonNegative_nonneg rest x (by simpa [firstNonNegative] using h)
  | some y :: rest, x, h => by
    by_cases hy : 0 ≤ y
    · have hxy : y = x := by simpa [firstNonNegative, hy] using h
      exact hxy ▸ hy
    · exact firstNonNegative_nonneg rest x
        (by simpa [firstNonNegative, hy] using h)

/-- Function `computeAverageMs` hands back a provided parsed `average_ms` as-is. -/
theorem computeAverageMs_of_some (row : Row) (x : ℚ)
    (h : row.average_ms = some x) : computeAverageMs row = x := by
  unfold computeAverageMs
  rw [h]

/-- Every value `computeAverageMs` produces for a row without a provided
parsed `average_ms` is the sentinel `-1` or non-negative. -/
theorem computeAverageMs_of_none (row : Row) (h : row.average_ms = none) :
    computeAverageMs row = -1 ∨ 0 ≤ computeAverageMs row := by
  cases hmean : row.mean_ms with
  | none =>
    refine Or.inl ?_
    unfold computeAverageMs
    rw [h, hmean]
  | some mean =>
    rw [computeAverageMs_eq row mean h hmean]
    by_cases h1 : roundedN row ≤ 0
    · rw [if_pos h1]; exact Or.inl rfl
    · rw [if_neg h1]
      by_cases h2 : row.max_ms = some (-1)
      · rw [if_pos h2]; exact Or.inl rfl
      · rw [if_neg h2]
        by_cases h3 : row.min_ms ≠ some (-1) ∧ 0 ≤ mean
        · rw [if_pos h3]; exact Or.inr h3.2
        · rw [if_neg h3]
          by_cases h4 : roundedN row ≤ estimateInvalidCount row (roundedN row)
          · rw [if_pos h4]; exact Or.inl rfl
          · rw [if_neg h4]
            by_cases h5 : 0 ≤ correctedMean mean (roundedN row)
                (estimateInvalidCount row (roundedN row))
            · rw [if_pos h5]; exact Or.inr h5
            · rw [if_neg h5]
              cases hfb : firstNonNegative
                  [row.p50_ms, row.p90_ms, row.p95_ms, row.max_ms] with
              | none => simp only [hfb]; trivial
              | some fallback =>
                simp only [hfb]
                exact Or.inr (firstNonNegative_nonneg _ _ hfb)

/-! ## Claim C1 -/

/-- A row whose `average_ms` cell parses to a finite negative number other
than `-1`. -/
def rowNegAvg : Row := { average_ms := some (-5) }

/-- C1, counterexample: the claimed invariant fails as stated.  For the row
whose `average_ms` cell parses to `-5`, `computeAverageMs` returns `-5`,
which is neither the sentinel `-1` nor a number `≥ 0`. -/
theorem C1_counterexample :
    computeAverageMs rowNegAvg = -5
    ∧ ¬(computeAverageMs rowNegAvg = -1 ∨ 0 ≤ computeAverageMs rowNegAvg) := by
  have h : computeAverageMs rowNegAvg = -5 :=
    computeAverageMs_of_some rowNegAvg (-5) rfl
  refine ⟨h, ?_⟩
  rw [h]
  norm_num

/-- C1 (amended): for every input row whose `average_ms` cell is absent,
unparseable, or parses to `-1` or to a number `≥ 0`, `computeAverageMs`
returns either the sentinel `-1` or a finite number `≥ 0`; consequently,
after enrichment of such a row set every row has a defined `average_ms`
that is `-1` or `≥ 0`. -/
theorem C1_enrichment_invariant :
    (∀ row : Row, (∀ x, row.average_ms = some x → x = -1 ∨ 0 ≤ x) →
        computeAverageMs row = -1 ∨ 0 ≤ computeAverageMs row)
  ∧ ∀ rows : List Row, ∀ r ∈ enrichAverageMetric rows,
      (∀ r0 ∈ rows, ∀ x, r0.average_ms = some x → x = -1 ∨ 0 ≤ x) →
      ∃ v, r.average_ms = some v ∧ (v = -1 ∨ 0 ≤ v) := by
  constructor
  · intro row hx
    cases havg : row.average_ms with
    | none => exact computeAverageMs_of_none row havg
    | some x =>
      rw [computeAverageMs_of_some row x havg]
      exact hx x havg
  · intro rows r hr hok
    simp only [enrichAverageMetric, List.mem_map] at hr
    obtain ⟨r0, hr0, rfl⟩ := hr
    refine ⟨computeAverageMs r0, rfl, ?_⟩
    cases havg : r0.average_ms with
    | none => exact computeAverageMs_of_none r0 havg
    | some x =>
      rw [computeAverageMs_of_some r0 x havg]
      exact hok r0 hr0 x havg

/-- C1, witness: the amended invariant applied to the spec's worked
example row. -/
theorem C1_witness :
    computeAverageMs row3 = -1 ∨ 0 ≤ computeAverageMs row3 :=
  C1_enrichment_invariant.1 row3 (by intro x hx; simp [row3] at hx)

/-! ## Claim C2 -/

/-- A row with both a provided parsed `average_ms` and the `max_ms`
sentinel. -/
def rowAvgMaxSentinel : Row := { average_ms := some 42, max_ms := some (-1) }

/-- C2, counterexample: the claim fails as stated.  A provided parsed
`average_ms` is returned before the `max_ms == -1` check is ever reached:
on a row with `average_ms = 42` and `max_ms = -1` the result is `42`,
not `-1`. -/
theorem C2_counterexample :
    rowAvgMaxSentinel.max_ms = some (-1)
    ∧ computeAverageMs rowAvgMaxSentinel = 42
    ∧ computeAverageMs rowAvgMaxSentinel ≠ -1 := by
  have h : computeAverageMs rowAvgMaxSentinel = 42 :=
    computeAverageMs_of_some rowAvgMaxSentinel 42 rfl
  exact ⟨rfl, h, by rw [h]; norm_num⟩

/-- C2 (amended): for every row whose `average_ms` cell does not parse to a
finite number, if the `max_ms` cell parses to `-1` then `computeAverageMs`
returns `-1`, regardless of all other fields. -/
theorem C2_max_sentinel_returns_sentinel (row : Row)
    (havg : row.average_ms = none) (hmax : row.max_ms = some (-1)) :
    computeAverageMs row = -1 := by
  cases hmean : row.mean_ms with
  | none =>
    unfold computeAverageMs
    rw [havg, hmean]
  | some mean =>
    rw [computeAverageMs_eq row mean havg hmean]
    by_cases h1 : roundedN row ≤ 0
    · rw [if_pos h1]
    · rw [if_neg h1, if_pos hmax]

/-- A row carrying the `max_ms` sentinel and no provided average. -/
def rowMaxOnly : Row := { n := some 10, mean_ms := some 50, max_ms := some (-1) }

/-- C2, witness: the amended statement applied to a concrete row. -/
theorem C2_witness : computeAverageMs rowMaxOnly = -1 :=
  C2_max_sentinel_returns_sentinel rowMaxOnly rfl rfl

/-! ## Claim C3 -/

/-- C3: on the spec's worked example row the rounded count is 100, the
estimated invalid fraction reaches the p50 trigger `0.70`, the invalid
count is exactly 70, and the reconstructed average is
`(50*100 + 70) / (100 - 70) = 169`. -/
theorem C3_worked_example :
    roundedN row3 = 100
  ∧ 7/10 ≤ invalidFrac row3 100
  ∧ estimateInvalidCount row3 100 = 70
  ∧ computeAverageMs row3 = 169 := by
  have hn : roundedN row3 = 100 := by
    simp only [roundedN, row3]
    exact jsRound_eq (by norm_num) (by norm_num)
  have hfrac : invalidFrac row3 100 = 7/10 := by
    simp only [invalidFrac, row3, isNeg]
    norm_num [max_def]
  have hest : estimateInvalidCount row3 100 = 70 := by
    rw [estimateInvalidCount_eq row3 100 (by norm_num [row3]) (by simp [row3]),
      hfrac]
    have hr : jsRound ((7/10 : ℚ) * ((100 : ℤ) : ℚ)) = 70 :=
      jsRound_eq (by push_cast; norm_num) (by push_cast; norm_num)
    rw [hr]
    norm_num [min_def, max_def]
  have havg : computeAverageMs row3 = 169 := by
    rw [computeAverageMs_eq row3 50 rfl rfl, hn, hest]
    norm_num [row3, correctedMean]
  exact ⟨hn, by rw [hfrac], hest, havg⟩

/-! ## Claim C4 -/

/-- A row reaching the estimation call with a rounded count of 1. -/
def rowN1 : Row :=
  { n := some 1, mean_ms := some 50, min_ms := some (-1), max_ms := some 80 }

/-- C4, counterexample: the claim fails for `n = 1`.  The row below
satisfies every condition of the estimation branch (no provided average,
`n = 1 ≥ 1`, mean present, `max_ms ≠ -1`, and the mean not trustworthy
because `min_ms = -1`), yet `estimateInvalidCount` returns `0`, which the
claim says is never produced. -/
theorem C4_counterexample :
    rowN1.average_ms = none ∧ rowN1.mean_ms = some 50
  ∧ rowN1.max_ms ≠ some (-1) ∧ rowN1.min_ms = some (-1)
  ∧ roundedN rowN1 = 1
  ∧ estimateInvalidCount rowN1 (roundedN rowN1) = 0 := by
  have hn : roundedN rowN1 = 1 := by
    simp only [roundedN, rowN1]
    exact jsRound_eq (by norm_num) (by norm_num)
  have hfrac : invalidFrac rowN1 1 = 1 := by
    simp only [invalidFrac, rowN1, isNeg]
    norm_num [max_def]
  have hest : estimateInvalidCount rowN1 1 = 0 := by
    rw [estimateInvalidCount_eq rowN1 1 (by norm_num [rowN1]) (by simp [rowN1]),
      hfrac]
    have hr : jsRound ((1 : ℚ) * ((1 : ℤ) : ℚ)) = 1 :=
      jsRound_eq (by push_cast; norm_num) (by push_cast; norm_num)
    rw [hr]
    norm_num [min_def, max_def]
  exact ⟨rfl, rfl, by norm_num [rowN1], rfl, hn, by rw [hn]; exact hest⟩

/-- C4 (amended): whenever `estimateInvalidCount` is reached on its
percentile path (`max_ms` not the sentinel, `min_ms` equal to the
sentinel) with a sample count `n ≥ 2`, its result lies in `[1, n-1]`:
never zero and never all of `n`.  (For `n = 1` the clamp degenerates and
returns `0`, and when `min_ms ≠ -1` — reachable from `computeAverageMs`
with a present negative mean — it returns `0` before any clamping.) -/
theorem C4_estimate_clamped (row : Row) (n : ℤ)
    (hmax : row.max_ms ≠ some (-1)) (hmin : row.min_ms = some (-1))
    (hn : 2 ≤ n) :
    1 ≤ estimateInvalidCount row n ∧ estimateInvalidCount row n ≤ n - 1 := by
  rw [estimateInvalidCount_eq row n hmax hmin]
  constructor
  · exact le_min (by omega) (le_max_left 1 _)
  · exact min_le_left _ _

/-- C4, witness: the amended clamp bounds on the worked-example row with
`n = 100`. -/
theorem C4_witness :
    1 ≤ estimateInvalidCount row3 100
    ∧ estimateInvalidCount row3 100 ≤ 100 - 1 :=
  C4_estimate_clamped row3 100 (by norm_num [row3]) rfl (by norm_num)

/-! ## Claim C5 -/

/-- C5: if the `average_ms` cell parses to a finite number,
`computeAverageMs` returns it unchanged, whatever every other field
holds. -/
theorem C5_provided_average_authoritative (row : Row) (x : ℚ)
    (h : row.average_ms = some x) : computeAverageMs row = x :=
  computeAverageMs_of_some row x h

/-- C5, witness: a provided average of `42` survives even next to the
`max_ms` sentinel. -/
theorem C5_witness : computeAverageMs rowAvgMaxSentinel = 42 :=
  C5_provided_average_authoritative rowAvgMaxSentinel 42 rfl

/-! ## Claim C6 -/

/-- Function `clamp01` never goes below 0. -/
theorem clamp01_nonneg (t : ℚ) : 0 ≤ clamp01 t := le_max_left 0 _

/-- Function `clamp01` never exceeds 1. -/
theorem clamp01_le_one (t : ℚ) : clamp01 t ≤ 1 :=
  max_le (by norm_num) (min_le_left 1 t)

/-- C6, counterexample: the claim fails as stated.  `valueToColor` checks
only `isFiniteNumber(v)`, not `v >= 0`: at the sentinel value `-1` (with
the default configuration and range `[0, 1]`) it returns the green ramp
anchor `#00b050`, not the configured missing color `#dddddd`.  The
`v >= 0` guard lives in the callers (`styleForFeature`, `tooltipHtml`),
not in `valueToColor`. -/
theorem C6_counterexample :
    valueToColor id scaleCfgDefault (some (-1)) 0 1 = "#00b050"
  ∧ scaleCfgDefault.missingColor = "#dddddd"
  ∧ valueToColor id scaleCfgDefault (some (-1)) 0 1
      ≠ scaleCfgDefault.missingColor := by
  have h1 : valueToColor id scaleCfgDefault (some (-1)) 0 1
      = rampColor (clamp01 ((-1 - 0) / (if (1 : ℚ) - 0 = 0 then 1
          else 1 - 0))) := rfl
  have ht : clamp01 ((-1 - 0) / (if (1 : ℚ) - 0 = 0 then 1 else 1 - 0))
      = 0 := by
    norm_num [clamp01, max_def, min_def]
  have hgr : jsRound (lerp ((green.r : ℤ) : ℚ) ((red.r : ℤ) : ℚ) 0) = 0 := by
    have e : lerp ((green.r : ℤ) : ℚ) ((red.r : ℤ) : ℚ) 0 = 0 := by
      norm_num [lerp, green, red]
    rw [e]
    exact jsRound_eq (by norm_num) (by norm_num)
  have hgg : jsRound (lerp ((green.g : ℤ) : ℚ) ((red.g : ℤ) : ℚ) 0)
      = 176 := by
    have e : lerp ((green.g : ℤ) : ℚ) ((red.g : ℤ) : ℚ) 0 = 176 := by
      norm_num [lerp, green, red]
    rw [e]
    exact jsRound_eq (by norm_num) (by norm_num)
  have hgb : jsRound (lerp ((green.b : ℤ) : ℚ) ((red.b : ℤ) : ℚ) 0)
      = 80 := by
    have e : lerp ((green.b : ℤ) : ℚ) ((red.b : ℤ) : ℚ) 0 = 80 := by
      norm_num [lerp, green, red]
    rw [e]
    exact jsRound_eq (by norm_num) (by norm_num)
  have h2 : rampColor 0 = "#00b050" := by
    unfold rampColor
    rw [hgr, hgg, hgb]
    decide
  refine ⟨by rw [h1, ht, h2], rfl, ?_⟩
  rw [h1, ht, h2]
  decide

/-- C6 (amended): for every range and every log-transform interpretation,
`valueToColor` returns the configured missing color whenever the value is
absent or not a finite number, and for every finite value — including the
sentinel `-1` and all other negatives — it returns a ramp color at some
clamped position `t ∈ [0, 1]`; the restriction to values `≥ 0` is enforced
by its callers, not by `valueToColor` itself. -/
theorem C6_missing_vs_ramp (lg : ℚ → ℚ) (cfg : ScaleCfg) (v : Option ℚ)
    (minV maxV : ℚ) :
    (v = none → valueToColor lg cfg v minV maxV = cfg.missingColor)
  ∧ ∀ x, v = some x → ∃ t, 0 ≤ t ∧ t ≤ 1 ∧
      valueToColor lg cfg v minV maxV = rampColor t := by
  constructor
  · rintro rfl
    rfl
  · rintro x rfl
    exact ⟨_, clamp01_nonneg _, clamp01_le_one _, rfl⟩

/-- C6, witness: an absent value maps to the configured missing color. -/
theorem C6_witness :
    valueToColor id scaleCfgDefault none 0 1
      = scaleCfgDefault.missingColor :=
  (C6_missing_vs_ramp id scaleCfgDefault none 0 1).1 rfl

/-! ## Claim C7 -/

/-- C7: with percentile bounds inside `[0, 100]`, the scale computation in
auto mode never produces `max ≤ min` — for every metric value list, empty
or not — while manual mode returns exactly the configured bounds
unmodified, even when `maxMs < minMs`. -/
theorem C7_scale_bounds (cfg : ScaleCfg) (vals : List ℚ)
    (hl0 : 0 ≤ cfg.pLow) (hl1 : cfg.pLow ≤ 100)
    (hh0 : 0 ≤ cfg.pHigh) (hh1 : cfg.pHigh ≤ 100) :
    (cfg.auto = true →
      (buildRenderStateScale cfg vals).1 < (buildRenderStateScale cfg vals).2)
  ∧ (cfg.auto = false →
      buildRenderStateScale cfg vals = (cfg.minMs, cfg.maxMs)) := by
  constructor
  · intro ha
    have h : buildRenderStateScale cfg vals = computeGlobalScale vals cfg := by
      unfold buildRenderStateScale
      rw [ha]
      simp
    rw [h]
    unfold computeGlobalScale
    by_cases hlen : vals.length = 0
    · rw [if_pos hlen]
      norm_num
    · rw [if_neg hlen]
      show qPercentile vals cfg.pLow <
        Max.max (qPercentile vals cfg.pHigh)
          (qPercentile vals cfg.pLow + 1/1000000)
      exact lt_max_iff.mpr (Or.inr (by linarith))
  · intro ha
    unfold buildRenderStateScale
    rw [ha]
    simp

/-- C7, witness: auto mode on the empty value list still yields
`min < max`. -/
theorem C7_witness :
    (buildRenderStateScale scaleCfgDefault []).1
      < (buildRenderStateScale scaleCfgDefault []).2 :=
  (C7_scale_bounds scaleCfgDefault []
    (by norm_num [scaleCfgDefault]) (by norm_num [scaleCfgDefault])
    (by norm_num [scaleCfgDefault]) (by norm_num [scaleCfgDefault])).1 rfl

/-! ## Claim C8 -/

/-- In an ascending list the head is a lower bound. -/
theorem sorted_head_le (l : List ℚ) (hne : l ≠ []) (hs : l.Sorted (· ≤ ·)) :
    ∀ x ∈ l, l.head hne ≤ x := by
  cases l with
  | nil => exact absurd rfl hne
  | cons a t =>
    intro x hx
    rcases List.mem_cons.mp hx with rfl | hx2
    · exact le_refl x
    · exact (List.sorted_cons.mp hs).1 x hx2

/-- In an ascending list the last element is an upper bound. -/
theorem sorted_le_getLast : ∀ (l : List ℚ) (hne : l ≠ []),
    l.Sorted (· ≤ ·) → ∀ x ∈ l, x ≤ l.getLast hne
  | [a], _, _, x, hx => by
    rcases List.mem_singleton.mp hx with rfl
    exact le_refl x
  | a :: b :: t, hne, hs, x, hx => by
    rcases List.mem_cons.mp hx with rfl | hx2
    · exact (List.sorted_cons.mp hs).1 _ (List.getLast_mem (by simp))
    · exact sorted_le_getLast (b :: t) (by simp)
        (List.sorted_cons.mp hs).2 x hx2

/-- Entry `getD 0` of a non-empty list is its head. -/
theorem getD_zero_head (l : List ℚ) (hne : l ≠ []) : l.getD 0 0 = l.head hne := by
  cases l with
  | nil => exact absurd rfl hne
  | cons a t => rfl

/-- Entry `getD (length - 1)` of a non-empty list is its last element. -/
theorem getD_length_sub_one : ∀ (l : List ℚ) (hne : l ≠ []),
    l.getD (l.length - 1) 0 = l.getLast hne
  | [a], _ => rfl
  | a :: b :: t, _ => getD_length_sub_one (b :: t) (by simp)

/-- C8: on every non-empty ascending sequence the percentile lookup
returns the head (the minimum) at `p = 0` and the last element (the
maximum) at `p = 100`, and at every `p` it is the linear interpolation of
the floor and ceiling order statistics of the fractional index, with an
interpolation weight in `[0, 1)`. -/
theorem C8_percentile_endpoints (vals : List ℚ) (hne : vals ≠ [])
    (hs : vals.Sorted (· ≤ ·)) :
    qPercentile vals 0 = vals.head hne
  ∧ (∀ x ∈ vals, vals.head hne ≤ x)
  ∧ qPercentile vals 100 = vals.getLast hne
  ∧ (∀ x ∈ vals, x ≤ vals.getLast hne)
  ∧ ∀ p : ℚ, ∃ t, 0 ≤ t ∧ t < 1 ∧
      qPercentile vals p =
        vals.getD (⌊(p / 100) * ((vals.length : ℚ) - 1)⌋).toNat 0 * (1 - t)
        + vals.getD (⌈(p / 100) * ((vals.length : ℚ) - 1)⌉).toNat 0 * t := by
  have hdef : ∀ p : ℚ, qPercentile vals p =
      (if ⌊(p / 100) * ((vals.length : ℚ) - 1)⌋
          = ⌈(p / 100) * ((vals.length : ℚ) - 1)⌉ then
        vals.getD (⌊(p / 100) * ((vals.length : ℚ) - 1)⌋).toNat 0
      else
        vals.getD (⌊(p / 100) * ((vals.length : ℚ) - 1)⌋).toNat 0
            * (1 - ((p / 100) * ((vals.length : ℚ) - 1)
                - ⌊(p / 100) * ((vals.length : ℚ) - 1)⌋))
          + vals.getD (⌈(p / 100) * ((vals.length : ℚ) - 1)⌉).toNat 0
            * ((p / 100) * ((vals.length : ℚ) - 1)
                - ⌊(p / 100) * ((vals.length : ℚ) - 1)⌋)) :=
    fun p => rfl
  refine ⟨?_, sorted_head_le vals hne hs, ?_,
    sorted_le_getLast vals hne hs, ?_⟩
  · have hidx : (0 / 100 : ℚ) * ((vals.length : ℚ) - 1) = 0 := by norm_num
    rw [hdef 0, hidx, Int.floor_zero, Int.ceil_zero, if_pos rfl]
    exact getD_zero_head vals hne
  · have h1 : 1 ≤ vals.length := List.length_pos.mpr hne
    have hidx : (100 / 100 : ℚ) * ((vals.length : ℚ) - 1)
        = ((vals.length - 1 : ℕ) : ℚ) := by
      rw [Nat.cast_sub h1]
      norm_num
    rw [hdef 100, hidx, Int.floor_natCast, Int.ceil_natCast, if_pos rfl,
      Int.toNat_natCast]
    exact getD_length_sub_one vals hne
  · intro p
    rw [hdef p]
    set idx : ℚ := (p / 100) * ((vals.length : ℚ) - 1) with hidxdef
    refine ⟨idx - ⌊idx⌋, by linarith [Int.floor_le idx],
      by linarith [Int.lt_floor_add_one idx], ?_⟩
    by_cases hfl : ⌊idx⌋ = ⌈idx⌉
    · rw [if_pos hfl, ← hfl]
      ring
    · rw [if_neg hfl]

/-- C8, witness: the endpoints on the two-element ascending list `[1, 2]`. -/
theorem C8_witness :
    qPercentile [(1 : ℚ), 2] 0 = [(1 : ℚ), 2].head (by simp) :=
  (C8_percentile_endpoints [(1 : ℚ), 2] (by simp)
    (by norm_num [List.sorted_cons])).1

/-! ## Claim C9 -/

/-- A signal is a no-op on a state that is already scheduled and pending. -/
theorem schedStep_signal_fix (s : SchedState)
    (h1 : s.refreshScheduled = true) (h2 : s.refreshPending = true) :
    schedStep s .signal = some s := by
  cases s
  simp_all [schedStep]

/-- Any number of further signals is absorbed by a scheduled, pending
state. -/
theorem runTrace_sigs_fix (s : SchedState)
    (h1 : s.refreshScheduled = true) (h2 : s.refreshPending = true) :
    ∀ (k : Nat) (rest : List SchedEv),
      runTrace s (sigs k ++ rest) = runTrace s rest
  | 0, rest => rfl
  | k + 1, rest => by
    have hfix : schedStep s .signal = some s := schedStep_signal_fix s h1 h2
    simp only [sigs, List.replicate_succ, List.cons_append, runTrace, hfix]
    exact runTrace_sigs_fix s h1 h2 k rest

/-- C9: from the idle state, a burst of `a ≥ 1` signals, the scheduled
pass, `b` further signals arriving strictly after that pass has begun but
before its trailing pending-check, and the re-run pass that the scheduler
queues exactly when `b ≠ 0`, together form a valid event sequence that
ends fully idle having executed exactly one pass when `b = 0` and exactly
two passes when `b ≥ 1` — never more, since the final state has nothing
queued or running. -/
theorem C9_refresh_coalescing (a b : Nat) (ha : 1 ≤ a) :
    runTrace idleState
      (sigs a ++ (SchedEv.beginPass :: (sigs b ++ (SchedEv.endPass ::
        (if b = 0 then [] else [SchedEv.beginPass, SchedEv.endPass])))))
    = some { refreshScheduled := false, refreshPending := false,
             running := false, queued := false,
             passes := if b = 0 then 1 else 2 } := by
  obtain ⟨a2, rfl⟩ : ∃ a2, a = a2 + 1 := ⟨a - 1, by omega⟩
  have h1 : schedStep idleState .signal =
      some { refreshScheduled := true, refreshPending := true,
             running := false, queued := true, passes := 0 } := by
    decide
  simp only [sigs, List.replicate_succ, List.cons_append, runTrace, h1]
  simp only [List.append_eq]
  rw [show List.replicate a2 SchedEv.signal = sigs a2 from rfl,
    runTrace_sigs_fix _ rfl rfl a2 _]
  have h2 : schedStep
      { refreshScheduled := true, refreshPending := true,
        running := false, queued := true, passes := 0 } .beginPass =
      some { refreshScheduled := true, refreshPending := false,
             running := true, queued := false, passes := 1 } := by
    decide
  simp only [runTrace, h2]
  by_cases hb : b = 0
  · subst hb
    decide
  · obtain ⟨b2, rfl⟩ : ∃ b2, b = b2 + 1 := ⟨b - 1, by omega⟩
    have h3 : schedStep
        { refreshScheduled := true, refreshPending := false,
          running := true, queued := false, passes := 1 } .signal =
        some { refreshScheduled := true, refreshPending := true,
               running := true, queued := false, passes := 1 } := by
      decide
    simp only [sigs, List.replicate_succ, List.cons_append, runTrace, h3]
    simp only [List.append_eq]
    rw [show List.replicate b2 SchedEv.signal = sigs b2 from rfl,
      runTrace_sigs_fix _ rfl rfl b2 _]
    simp only [Nat.succ_ne_zero, if_false]
    decide

/-- C9, witness: two signals before the first pass plus one mid-pass
signal yield exactly two passes and an idle final state. -/
theorem C9_witness :
    runTrace idleState
      (sigs 2 ++ (SchedEv.beginPass :: (sigs 1 ++ (SchedEv.endPass ::
        (if 1 = 0 then [] else [SchedEv.beginPass, SchedEv.endPass])))))
    = some { refreshScheduled := false, refreshPending := false,
             running := false, queued := false,
             passes := if 1 = 0 then 1 else 2 } :=
  C9_refresh_coalescing 2 1 (by norm_num)

/-! ## Claim C10 -/

/-- Zeta-free unfolding of `qPercentile`. -/
theorem qPercentile_def (vals : List ℚ) (p : ℚ) :
    qPercentile vals p =
      (if ⌊(p / 100) * ((vals.length : ℚ) - 1)⌋
          = ⌈(p / 100) * ((vals.length : ℚ) - 1)⌉ then
        vals.getD (⌊(p / 100) * ((vals.length : ℚ) - 1)⌋).toNat 0
      else
        vals.getD (⌊(p / 100) * ((vals.length : ℚ) - 1)⌋).toNat 0
            * (1 - ((p / 100) * ((vals.length : ℚ) - 1)
                - ⌊(p / 100) * ((vals.length : ℚ) - 1)⌋))
          + vals.getD (⌈(p / 100) * ((vals.length : ℚ) - 1)⌉).toNat 0
            * ((p / 100) * ((vals.length : ℚ) - 1)
                - ⌊(p / 100) * ((vals.length : ℚ) - 1)⌋)) := rfl

/-- Every percentile of a one-element list is that element. -/
theorem qPercentile_singleton (x p : ℚ) : qPercentile [x] p = x := by
  rw [qPercentile_def]
  norm_num

/-- A row with a blank `src_country`, a well-formed `dst_country` and a
valid `mean_ms` value. -/
def hiddenRow : Row :=
  { src_country := [], dst_country := ['D', 'E'], mean_ms := some 42 }

/-- The one-row table consisting of `hiddenRow`. -/
def hiddenRows : List Row := [hiddenRow]

/-- C10: `buildMetricValues` collects the finite non-negative metric value
of every row — it never looks at `src_country`/`dst_country` — while
`buildIndex` drops rows whose normalized source or destination code is
blank; hence for the one-row table `hiddenRows` the index is empty (no
source selection can ever display its row), yet the auto-scale computed
from the collected `mean_ms` values is derived from that undisplayable
row's value `42` rather than from the degenerate default `(0, 1)`. -/
theorem C10_hidden_values_drive_scale :
    (∀ (rows : List Row) (r : Row) (metric : Metric) (v : ℚ),
        r ∈ rows → getMetric r metric = some v → 0 ≤ v →
        v ∈ buildMetricValues rows metric)
  ∧ indexEntries hiddenRows = []
  ∧ buildMetricValues hiddenRows .mean_ms = [42]
  ∧ computeGlobalScale (buildMetricValues hiddenRows .mean_ms)
      scaleCfgDefault = (42, 42 + 1/1000000) := by
  have hvals : buildMetricValues hiddenRows .mean_ms = [42] := by
    simp [buildMetricValues, hiddenRows, hiddenRow, getMetric,
      List.insertionSort, List.orderedInsert]
  refine ⟨?_, ?_, hvals, ?_⟩
  · intro rows r metric v hr hg hv
    unfold buildMetricValues
    rw [List.mem_insertionSort]
    exact List.mem_filterMap.mpr ⟨r, hr, by rw [hg]; simp [hv]⟩
  · simp [indexEntries, hiddenRows, hiddenRow, normCode, jsTrim]
  · rw [hvals]
    have hscale : computeGlobalScale [(42 : ℚ)] scaleCfgDefault
        = (qPercentile [(42 : ℚ)] scaleCfgDefault.pLow,
           Max.max (qPercentile [(42 : ℚ)] scaleCfgDefault.pHigh)
             (qPercentile [(42 : ℚ)] scaleCfgDefault.pLow + 1/1000000)) := by
      unfold computeGlobalScale
      rw [if_neg (by norm_num)]
    rw [hscale, qPercentile_singleton, qPercentile_singleton]
    norm_num [Prod.ext_iff, max_def]

/-- C10, witness: the hidden row's `mean_ms` value `42` is collected into
the metric value index even though its row is absent from the source
index. -/
theorem C10_witness : (42 : ℚ) ∈ buildMetricValues hiddenRows .mean_ms :=
  C10_hidden_values_drive_scale.1 hiddenRows hiddenRow .mean_ms 42
    (by simp [hiddenRows]) rfl (by norm_num)
